import Mathlib

/-!
# Verification of the SKK conversion core of go-readline-skk

This development shallowly embeds the conversion controller, dictionary
lookup with numeral abstraction, registration/purge flows and keymap
switching of `main.go`, and proves the specified properties about them.

The host line editor's buffer is modelled as a list of character cells
with a cursor, following the abstract buffer capability the code consumes
(insert, replace-region, substring, remove-one-cell).
-/

namespace Skk

/-- The pending-composition marker glyph (source constant markerWhite). -/
def markerWhite : String := "▽"

/-- The selecting-candidate marker glyph (source constant markerBlack). -/
def markerBlack : String := "▼"

/-- The cancel key string (keys.CtrlG). -/
def ctrlG : String := "\x07"

/-- A buffer cell holds one glyph; the editor buffer is the cell list plus cursor. -/
structure Buffer where
  buffer : List Char
  cursor : Nat
deriving Repr, DecidableEq

def isMarker (c : Char) : Bool := c = '▽' || c = '▼'

/-- Host primitive: replace the region from pos to the cursor by text,
leaving the cursor after the inserted text. -/
def Buffer.replaceAndRepaint (b : Buffer) (pos : Nat) (text : String) : Buffer :=
  { buffer := b.buffer.take pos ++ text.data ++ b.buffer.drop b.cursor
    cursor := pos + text.length }

/-- Host primitive: insert text at the cursor. -/
def Buffer.insertAndRepaint (b : Buffer) (text : String) : Buffer :=
  { buffer := b.buffer.take b.cursor ++ text.data ++ b.buffer.drop b.cursor
    cursor := b.cursor + text.length }

/-- Host primitive: the string of the cells in [s, e). -/
def Buffer.subString (b : Buffer) (s e : Nat) : String :=
  String.mk ((b.buffer.drop s).take (e - s))

/-- Source removeOne: delete the single cell at pos and move the cursor left. -/
def removeOne (b : Buffer) (pos : Nat) : Buffer :=
  { buffer := b.buffer.take pos ++ b.buffer.drop (pos + 1)
    cursor := b.cursor - 1 }

/-- Source seekMarker scans from the cell left of the cursor downwards;
this helper performs the downward scan from index n - 1. -/
def seekMarkerAux (buf : List Char) : Nat → Option Nat
  | 0 => none
  | i + 1 => if isMarker (buf.getD i ' ') then some i else seekMarkerAux buf i

/-- Source seekMarker: the position of the nearest marker glyph left of the cursor. -/
def seekMarker (b : Buffer) : Option Nat :=
  seekMarkerAux b.buffer b.cursor

/-- Modelled from the spec: the dictionary store type (`Jisyo`, declared in a
repository file outside src/): a mapping from reading to ordered candidate
list, here an association list with the usual map operations. -/
abbrev Jisyo : Type := List (String × List String)

/-- Map read: first binding of the key, if any. -/
def jLookup : Jisyo → String → Option (List String)
  | [], _ => none
  | (k2, v) :: t, k => if k2 = k then some v else jLookup t k

/-- Map write: replace the binding of the key, or append a new one. -/
def jInsert : Jisyo → String → List String → Jisyo
  | [], k, v => [(k, v)]
  | (k2, v2) :: t, k, v => if k2 = k then (k, v) :: t else (k2, v2) :: jInsert t k v

/-- Map delete: drop the binding of the key. -/
def jDelete : Jisyo → String → Jisyo
  | [], _ => []
  | (k2, v) :: t, k => if k2 = k then jDelete t k else (k2, v) :: jDelete t k

/-- The dictionary part of the session Mode (User and System stores). -/
structure Mode where
  user : Jisyo
  system : Jisyo
deriving Repr, DecidableEq

/-- Source kansuji map: digit to kanji numeral glyph (missing keys give ""). -/
def kansuji (c : Char) : String :=
  if c = '0' then "〇"
  else if c = '1' then "一"
  else if c = '2' then "二"
  else if c = '3' then "三"
  else if c = '4' then "四"
  else if c = '5' then "五"
  else if c = '6' then "六"
  else if c = '7' then "七"
  else if c = '8' then "八"
  else if c = '9' then "九"
  else ""

/-- Source numberToKanji: per-digit kanji rendering. -/
def numberToKanji (s : String) : String :=
  String.join (s.data.map kansuji)

/-- Source hanToZen: map a printable ASCII character to its full-width form. -/
def hanToZen (c : Char) : Char :=
  if c < ' ' || Char.ofNat 0x7f ≤ c then c
  else if c = ' ' then '　'
  else Char.ofNat (c.toNat - 0x20 + 0xFF00)

/-- Source hanToZenString: full-width rendering of a string. -/
def hanToZenString (s : String) : String :=
  String.mk (s.data.map hanToZen)

/-- Source _lookup: user store first, system store on a miss. -/
def lookupBoth (M : Mode) (source : String) : Option (List String) :=
  match jLookup M.user source with
  | some list => some list
  | none => jLookup M.system source

/-- Source rxNumber.FindStringIndex: split off the first maximal contiguous
digit run, returning (before, run, after) when one exists. -/
def splitDigitRun : List Char → Option (List Char × List Char × List Char)
  | [] => none
  | c :: cs =>
    if c.isDigit then
      some ([], c :: cs.takeWhile Char.isDigit, cs.dropWhile Char.isDigit)
    else
      match splitDigitRun cs with
      | some (p, r, suf) => some (c :: p, r, suf)
      | none => none

/-- The set of style digits matched by the source regex rxToNumber (#[0123459]). -/
def isStyleCode (d : Char) : Bool :=
  d = '0' || d = '1' || d = '2' || d = '3' || d = '4' || d = '5' || d = '9'

/-- The switch inside lookup rendering one numeral-style code. -/
def styleRender (number : String) (d : Char) : String :=
  if d = '0' then number
  else if d = '1' then hanToZenString number
  else if d = '2' then numberToKanji number
  else if d = '3' then numberToKanji number
  else number

/-- Source rxToNumber.ReplaceAllStringFunc: replace every two-character
numeral-style code by the rendering of the captured digit run. -/
def replaceNumStyles (number : String) : List Char → List Char
  | [] => []
  | [c] => [c]
  | c :: d :: rest =>
    if c = '#' && isStyleCode d then
      (styleRender number d).data ++ replaceNumStyles number rest
    else
      c :: replaceNumStyles number (d :: rest)

/-- Source lookup: exact lookup, then digit-run abstraction retry with
numeral-style expansion of the returned candidates. -/
def lookup (M : Mode) (source : String) : Option (List String) :=
  match lookupBoth M source with
  | some list => some list
  | none =>
    match splitDigitRun source.data with
    | none => none
    | some (p, run, suf) =>
      match lookupBoth M (String.mk (p ++ '#' :: suf)) with
      | none => none
      | some list =>
        some (list.map (fun s => String.mk (replaceNumStyles (String.mk run) s.data)))

/-- Source newCandidate: prompt answer handling for dictionary registration.
The answer is none on prompt failure; an empty answer is also rejected.
A duplicate of an existing candidate is accepted but not re-inserted;
otherwise the word goes to the front of the reading's user-store list. -/
def newCandidate (M : Mode) (source : String) (answer : Option String) :
    Mode × Option String :=
  match answer with
  | none => (M, none)
  | some w =>
    if w = "" then (M, none)
    else
      let list := (lookup M source).getD []
      if w ∈ list then (M, some w)
      else ({ M with user := jInsert M.user source (w :: list) }, some w)

/-- Source listingStartIndex: the candidate index at which paging starts. -/
def listingStartIndex : Nat := 4

/-- strings.Cut(s, ";"): the part of a candidate entry before its annotation. -/
def cutSemi (s : String) : String :=
  String.mk (s.data.takeWhile (fun c => c ≠ ';'))

/-- True when the first list is a leading segment of the second. -/
def leadsWith : List Char → List Char → Bool
  | [], _ => true
  | _ :: _, [] => false
  | a :: as, b :: bs => a = b && leadsWith as bs

/-- strings.Index: the first position where the needle occurs in the haystack. -/
def strIndex : List Char → List Char → Option Nat
  | [], needle => if needle = [] then some 0 else none
  | c :: t, needle =>
    if leadsWith needle (c :: t) then some 0 else (strIndex t needle).map (· + 1)

/-- The position of a paging selection key inside "asdfjkl:". -/
def selectKeyIndex (k : String) : Option Nat :=
  strIndex "asdfjkl:".data k.data

/-- The window-end computed by the paging display loop: it walks the key row
"ASDFJKL:" until the list is exhausted, so it stops at current + 8 or at the
list end, whichever comes first. -/
def pagingWindowEnd (listLen current : Nat) : Nat :=
  min (current + 8) listLen

/-- The per-conversion context of henkanMode: the resolved candidate list,
the reading, the okurigana display suffix, and the marker position. -/
structure HCtx where
  list : List String
  source : String
  okuri : String
  markerPos : Nat
deriving Repr, DecidableEq

/-- The states of the conversion controller, including the exit states.
committed carries the key to re-dispatch as an ordinary command, if any. -/
inductive HState where
  | selecting (current : Nat)
  | paging (current : Nat)
  | purging (current : Nat)
  | registering
  | composing
  | committed (redispatch : Option String)
  | purged
  | registered
deriving Repr, DecidableEq

/-- Go compares strings bytewise; on valid UTF-8 that order coincides with
lexicographic order on code points, which this structural function decides
(the host's String order is not kernel-reducible). -/
def goLess : List Char → List Char → Bool
  | [], [] => false
  | [], _ :: _ => true
  | _ :: _, [] => false
  | a :: as, b :: bs => if a < b then true else if b < a then false else goLess as bs

/-- The single-candidate display written by henkanMode while selecting. -/
def selDisplay (ctx : HCtx) (current : Nat) : String :=
  markerBlack ++ cutSemi (ctx.list.getD current "") ++ ctx.okuri

/-- One key handled in the Selecting state (the body of the henkanMode loop
up to the paging and prompt sub-flows, which become their own states). -/
def selStep (ctx : HCtx) (M : Mode) (b : Buffer) (current : Nat) (input : String) :
    HState × Mode × Buffer :=
  if input = ctrlG then
    (.composing, M, b.replaceAndRepaint ctx.markerPos (markerWhite ++ ctx.source))
  else if goLess input.data " ".data then
    (.committed none, M, removeOne b ctx.markerPos)
  else if input = " " then
    if current + 1 ≥ ctx.list.length then
      (.registering, M, b)
    else if current + 1 ≥ listingStartIndex then
      (.paging (current + 1), M, b)
    else
      (.selecting (current + 1), M, b.replaceAndRepaint ctx.markerPos (selDisplay ctx (current + 1)))
  else if input = "x" then
    if current = 0 then
      (.composing, M, b.replaceAndRepaint ctx.markerPos (markerWhite ++ ctx.source))
    else
      (.selecting (current - 1), M, b.replaceAndRepaint ctx.markerPos (selDisplay ctx (current - 1)))
  else if input = "X" then
    (.purging current, M, b)
  else
    (.committed (some input), M, removeOne b ctx.markerPos)

/-- One key handled in the Paging state (one pass of the inner loop of
henkanMode); the key is none when ask1 failed, which just loops. -/
def pagStep (ctx : HCtx) (M : Mode) (b : Buffer) (current : Nat) (key : Option String) :
    HState × Mode × Buffer :=
  match key with
  | none => (.paging current, M, b)
  | some k =>
    match selectKeyIndex k with
    | some i =>
      (.committed none, M, b.replaceAndRepaint ctx.markerPos (cutSemi (ctx.list.getD (current + i) "")))
    | none =>
      if k = " " then
        (.paging (pagingWindowEnd ctx.list.length current), M, b)
      else if k = "x" then
        if current - 8 < listingStartIndex then (.selecting (current - 8), M, b)
        else (.paging (current - 8), M, b)
      else if k = ctrlG then
        (.composing, M, b.replaceAndRepaint ctx.markerPos (markerWhite ++ ctx.source))
      else
        (.paging current, M, b)

/-- One purge confirmation answer handled in the Purging state. -/
def purStep (ctx : HCtx) (M : Mode) (b : Buffer) (current : Nat) (ans : Option String) :
    HState × Mode × Buffer :=
  match ans with
  | none => (.selecting current, M, b)
  | some a =>
    if a = "y" ∨ a = "yes" then
      (.purged,
        (if ctx.list.length ≤ 1 then { M with user := jDelete M.user ctx.source }
         else
           { M with
             user := jInsert M.user ctx.source
               (ctx.list.take current ++ ctx.list.drop (current + 1)) }),
        b.replaceAndRepaint ctx.markerPos "")
    else (.selecting current, M, b)

/-- One registration answer handled in the Registering state. -/
def regStep (ctx : HCtx) (M : Mode) (b : Buffer) (ans : Option String) :
    HState × Mode × Buffer :=
  match newCandidate M ctx.source ans with
  | (M2, some w) => (.registered, M2, b.replaceAndRepaint ctx.markerPos w)
  | (M2, none) => (.composing, M2, b.replaceAndRepaint ctx.markerPos (markerWhite ++ ctx.source))

/-- One input consumed by the conversion controller in any state; exit
states absorb further input unchanged. -/
def stepH (ctx : HCtx) (s : HState × Mode × Buffer) (inp : Option String) :
    HState × Mode × Buffer :=
  match s with
  | (.selecting cur, M, b) => selStep ctx M b cur (inp.getD "")
  | (.paging cur, M, b) => pagStep ctx M b cur inp
  | (.purging cur, M, b) => purStep ctx M b cur inp
  | (.registering, M, b) => regStep ctx M b inp
  | s => s

/-- Iterated advance: feed the space key n times to the controller. -/
def iterateSpaces (ctx : HCtx) : Nat → HState × Mode × Buffer → HState × Mode × Buffer
  | 0, s => s
  | n + 1, s => iterateSpaces ctx n (stepH ctx s (some " "))

/-- The entry of henkanMode: resolve the reading and either display the
first candidate (Selecting) or fall into Registering on a lookup miss. -/
def henkanMode (M : Mode) (b : Buffer) (markerPos : Nat) (source okuri : String) :
    HCtx × (HState × Mode × Buffer) :=
  match lookup M source with
  | none => (⟨[], source, okuri, markerPos⟩, (.registering, M, b))
  | some list =>
    (⟨list, source, okuri, markerPos⟩,
      (.selecting 0, M,
        b.replaceAndRepaint markerPos (markerBlack ++ cutSemi (list.getD 0 "") ++ okuri)))

/-- The exit states that leave the conversion region committed or purged
(Composing is a reversion, not an exit of the region). -/
def isCommitExit : HState → Bool
  | .committed _ => true
  | .purged => true
  | .registered => true
  | _ => false

/-- The reading built by an okurigana trigger: marked text plus the
trigger consonant (source _Trigger.Call). -/
def triggerSource (b : Buffer) (markerPos : Nat) (key : Char) : String :=
  b.subString (markerPos + 1) b.cursor ++ Char.toString key

/-- The okurigana display suffix of a trigger: the kana table entry of the
key when it is a vowel, the literal key character otherwise. -/
def triggerOkuri (table : String → String) (key : Char) : String :=
  if ("aiueo".data.contains key) then table (Char.toString key) else Char.toString key

/-- The two branches of _Trigger.Call: with an active marker it enters
conversion; without one it inserts a fresh pending marker. -/
inductive TrigAct where
  | henkan (markerPos : Nat) (source okuri : String)
  | insertMarker
deriving Repr, DecidableEq

/-- Source _Trigger.Call, up to the romaji continuation. -/
def triggerCall (table : String → String) (b : Buffer) (key : Char) : TrigAct :=
  match seekMarker b with
  | some p => .henkan p (triggerSource b p key) (triggerOkuri table key)
  | none => .insertMarker

/-- Source cmdAbbrevMode, restricted to its buffer effect: with an active
marker it does nothing; otherwise it inserts a pending marker. -/
def cmdAbbrevMode (b : Buffer) : Buffer :=
  match seekMarker b with
  | some _ => b
  | none => b.insertAndRepaint markerWhite

/-- Source backupKeyMap: capture the bindings of key codes 0x00..0x80 once;
later calls with a snapshot already saved are no-ops. -/
def backupKeyMap {A : Type} (saveMap : Option (List A)) (km : Nat → A) : Option (List A) :=
  match saveMap with
  | some s => some s
  | none => some ((List.range 129).map km)

/-- Source restoreKeyMap: rebind every saved code to its saved command. -/
def restoreKeyMap {A : Type} (saveMap : Option (List A)) (km : Nat → A) : Nat → A :=
  match saveMap with
  | none => km
  | some l => fun i => l.getD i (km i)

/-- Source cmdKakutei: with no active marker, fall back to Latin mode;
otherwise drop the marker cell and keep editing. -/
def cmdKakutei {A : Type} (saveMap : Option (List A)) (b : Buffer) (km : Nat → A) :
    Buffer × (Nat → A) :=
  match seekMarker b with
  | none => (b, restoreKeyMap saveMap km)
  | some p => (removeOne b p, km)

/-- Source cmdCancel: with no active marker, fall back to Latin mode;
otherwise erase the whole marked region. -/
def cmdCancel {A : Type} (saveMap : Option (List A)) (b : Buffer) (km : Nat → A) :
    Buffer × (Nat → A) :=
  match seekMarker b with
  | none => (b, restoreKeyMap saveMap km)
  | some p => (b.replaceAndRepaint p "", km)

/-- Number of marker glyphs in a cell list. -/
def countMarkers (l : List Char) : Nat :=
  l.countP (fun c => isMarker c)

/-! ## Helper lemmas -/

theorem getD_append_skip {α : Type} (pre l : List α) (i : Nat) (d : α) :
    (pre ++ l).getD (pre.length + i) d = l.getD i d := by
  induction pre with
  | nil => simp
  | cons c t ih => simpa [Nat.succ_add] using ih

theorem getD_take {α : Type} (l : List α) (n j : Nat) (d : α) (h : j < n) :
    (l.take n).getD j d = l.getD j d := by
  induction l generalizing n j with
  | nil => simp
  | cons c t ih =>
    cases n with
    | zero => exact absurd h (Nat.not_lt_zero j)
    | succ n =>
      cases j with
      | zero => simp
      | succ j => simpa using ih n j (Nat.lt_of_succ_lt_succ h)

theorem getD_drop {α : Type} (l : List α) (n i : Nat) (d : α) :
    (l.drop n).getD i d = l.getD (n + i) d := by
  induction l generalizing n with
  | nil => simp
  | cons c t ih =>
    cases n with
    | zero => simp
    | succ n => simp [Nat.succ_add, ih n]

theorem countMarkers_append (a b : List Char) :
    countMarkers (a ++ b) = countMarkers a + countMarkers b := by
  simp [countMarkers, List.countP_append]

theorem countMarkers_eq_zero (l : List Char) :
    countMarkers l = 0 ↔ ∀ c ∈ l, isMarker c = false := by
  simp [countMarkers, List.countP_eq_zero]

theorem countMarkers_cutSemi (s : String) (h : countMarkers s.data = 0) :
    countMarkers (cutSemi s).data = 0 := by
  rw [countMarkers_eq_zero] at h ⊢
  intro c hc
  exact h c ((List.takeWhile_sublist _).subset hc)

theorem countMarkers_getD (l : List String) (i : Nat)
    (h : ∀ s ∈ l, countMarkers s.data = 0) :
    countMarkers ((l.getD i "").data) = 0 := by
  induction l generalizing i with
  | nil => cases i <;> simp [countMarkers]
  | cons s t ih =>
    cases i with
    | zero => exact h s (List.mem_cons_self s t)
    | succ i => exact ih i (fun x hx => h x (List.mem_cons_of_mem s hx))

theorem replace_shape (pre mid post : List Char) (t : String) :
    Buffer.replaceAndRepaint ⟨pre ++ mid ++ post, pre.length + mid.length⟩ pre.length t =
      ⟨pre ++ t.data ++ post, pre.length + t.length⟩ := by
  simp only [Buffer.replaceAndRepaint, Buffer.mk.injEq, and_true]
  have htake : List.take pre.length (pre ++ mid ++ post) = pre := by
    rw [List.append_assoc]; exact List.take_left pre _
  have hdrop : List.drop (pre.length + mid.length) (pre ++ mid ++ post) = post := by
    rw [← List.length_append]; exact List.drop_left (pre ++ mid) post
  rw [htake, hdrop]

theorem removeOne_shape (pre rest post : List Char) (c : Char) (n : Nat) :
    removeOne ⟨pre ++ c :: rest ++ post, n⟩ pre.length =
      ⟨pre ++ rest ++ post, n - 1⟩ := by
  simp only [removeOne, Buffer.mk.injEq, and_true]
  have htake : List.take pre.length (pre ++ c :: rest ++ post) = pre := by
    rw [List.append_assoc]; exact List.take_left pre _
  have hlen : pre.length + 1 = (pre ++ [c]).length := by simp
  have hsplit : pre ++ c :: rest ++ post = (pre ++ [c]) ++ (rest ++ post) := by simp
  have hdrop : List.drop (pre.length + 1) (pre ++ c :: rest ++ post) = rest ++ post := by
    rw [hlen, hsplit, List.drop_left]
  rw [htake, hdrop]
  exact (List.append_assoc pre rest post).symm

theorem seekMarkerAux_skip (buf : List Char) (n m : Nat) (h : n ≤ m)
    (hfree : ∀ j, n ≤ j → j < m → isMarker (buf.getD j ' ') = false) :
    seekMarkerAux buf m = seekMarkerAux buf n := by
  induction m with
  | zero => cases Nat.le_zero.mp h; rfl
  | succ m ih =>
    rcases Nat.eq_or_lt_of_le h with h2 | h2
    · rw [h2]
    · have hm : isMarker (buf.getD m ' ') = false :=
        hfree m (Nat.lt_succ_iff.mp h2) (Nat.lt_succ_self m)
      rw [seekMarkerAux, hm]
      simp only [Bool.false_eq_true, if_false]
      exact ih (Nat.lt_succ_iff.mp h2) (fun j hj hjm => hfree j hj (Nat.lt_succ_of_lt hjm))

theorem seekMarkerAux_none (buf : List Char) (m : Nat) :
    seekMarkerAux buf m = none ↔ ∀ j, j < m → isMarker (buf.getD j ' ') = false := by
  induction m with
  | zero => simp [seekMarkerAux]
  | succ m ih =>
    rw [seekMarkerAux]
    cases hm : isMarker (buf.getD m ' ') with
    | false =>
      simp only [Bool.false_eq_true, if_false]
      rw [ih]
      constructor
      · intro h j hj
        rcases Nat.lt_succ_iff_lt_or_eq.mp hj with hj2 | hj2
        · exact h j hj2
        · subst hj2; exact hm
      · intro h j hj
        exact h j (Nat.lt_succ_of_lt hj)
    | true =>
      rw [if_pos rfl]
      constructor
      · intro h; exact absurd h (by simp)
      · intro h
        rw [h m (Nat.lt_succ_self m)] at hm
        exact (Bool.false_ne_true hm).elim

theorem seekMarker_shape (pre rest post : List Char) (mk : Char)
    (hmk : isMarker mk = true)
    (hrest : countMarkers rest = 0) :
    seekMarker ⟨pre ++ mk :: rest ++ post, pre.length + 1 + rest.length⟩ = some pre.length := by
  rw [seekMarker]
  have hgd : ∀ i, (pre ++ mk :: rest ++ post).getD (pre.length + i) ' ' =
      (mk :: (rest ++ post)).getD i ' ' := by
    intro i
    rw [List.append_assoc]
    exact getD_append_skip pre (mk :: (rest ++ post)) i ' '
  have hskip : seekMarkerAux (pre ++ mk :: rest ++ post) (pre.length + 1 + rest.length) =
      seekMarkerAux (pre ++ mk :: rest ++ post) (pre.length + 1) := by
    apply seekMarkerAux_skip
    · exact Nat.le_add_right _ _
    · intro j hj hjm
      obtain ⟨i, rfl⟩ : ∃ i, j = pre.length + (i + 1) := ⟨j - (pre.length + 1), by omega⟩
      have hi : i < rest.length := by omega
      rw [hgd, List.getD_cons_succ, List.getD_append rest post ' ' i hi,
        List.getD_eq_getElem rest ' ' hi]
      exact (countMarkers_eq_zero rest).mp hrest _ (List.getElem_mem hi)
  rw [hskip, seekMarkerAux]
  have : (pre ++ mk :: rest ++ post).getD pre.length ' ' = mk := by
    have := hgd 0
    simpa using this
  rw [this, hmk]
  simp

theorem jLookup_jInsert_self (j : Jisyo) (k : String) (v : List String) :
    jLookup (jInsert j k v) k = some v := by
  induction j with
  | nil => simp [jInsert, jLookup]
  | cons p t ih =>
    obtain ⟨k2, v2⟩ := p
    by_cases h : k2 = k
    · simp [jInsert, h, jLookup]
    · simp [jInsert, h, jLookup, ih]

theorem jLookup_jInsert_other (j : Jisyo) (k k2 : String) (v : List String) (h : k2 ≠ k) :
    jLookup (jInsert j k v) k2 = jLookup j k2 := by
  have h2 : k ≠ k2 := fun hh => h hh.symm
  induction j with
  | nil => simp [jInsert, jLookup, h2]
  | cons p t ih =>
    obtain ⟨k3, v3⟩ := p
    by_cases h3 : k3 = k
    · subst h3
      simp [jInsert, jLookup, h2]
    · simp only [jInsert, h3, if_false]
      by_cases h4 : k3 = k2 <;> simp [jLookup, h4, ih]

theorem jLookup_jDelete_self (j : Jisyo) (k : String) :
    jLookup (jDelete j k) k = none := by
  induction j with
  | nil => simp [jDelete, jLookup]
  | cons p t ih =>
    obtain ⟨k2, v2⟩ := p
    by_cases h : k2 = k
    · simp [jDelete, h, ih]
    · simp [jDelete, h, jLookup, ih]

theorem lookup_user_some (M : Mode) (r : String) (l : List String)
    (h : jLookup M.user r = some l) : lookup M r = some l := by
  simp [lookup, lookupBoth, h]

theorem lookupBoth_user_none (M : Mode) (r : String)
    (h : jLookup M.user r = none) : lookupBoth M r = jLookup M.system r := by
  simp [lookupBoth, h]

theorem splitDigitRun_none (s : List Char) :
    splitDigitRun s = none ↔ ∀ c ∈ s, c.isDigit = false := by
  induction s with
  | nil => simp [splitDigitRun]
  | cons c cs ih =>
    rw [splitDigitRun]
    cases hd : c.isDigit with
    | false =>
      simp only [Bool.false_eq_true, if_false]
      cases hs : splitDigitRun cs with
      | some p =>
        obtain ⟨p1, p2, p3⟩ := p
        simp only [List.mem_cons]
        constructor
        · intro h; exact absurd h (by simp)
        · intro h
          have := (ih.mpr (fun x hx => h x (Or.inr hx)))
          rw [this] at hs; cases hs
      | none =>
        simp only [List.mem_cons]
        constructor
        · intro _ x hx
          rcases hx with hx | hx
          · subst hx; exact hd
          · exact ih.mp hs x hx
        · intro _; trivial
    | true =>
      rw [if_pos rfl]
      simp only [List.mem_cons]
      constructor
      · intro h; exact absurd h (by simp)
      · intro h
        rw [h c (Or.inl rfl)] at hd
        exact (Bool.false_ne_true hd).elim

theorem dropWhile_head_not {p : Char → Bool} :
    ∀ (l : List Char) (c : Char), (l.dropWhile p).head? = some c → p c = false := by
  intro l
  induction l with
  | nil => intro c h; cases h
  | cons a t ih =>
    intro c h
    rw [List.dropWhile_cons] at h
    by_cases ha : p a = true
    · rw [if_pos ha] at h
      exact ih c h
    · rw [if_neg ha] at h
      cases h
      exact Bool.eq_false_iff.mpr ha

theorem splitDigitRun_spec :
    ∀ (s p run suf : List Char), splitDigitRun s = some (p, run, suf) →
      s = p ++ run ++ suf ∧ run ≠ [] ∧ (∀ c ∈ run, c.isDigit = true) ∧
        (∀ c ∈ p, c.isDigit = false) ∧
        (∀ c, suf.head? = some c → c.isDigit = false) := by
  intro s
  induction s with
  | nil => intro p run suf h; cases h
  | cons c cs ih =>
    intro p run suf h
    rw [splitDigitRun] at h
    by_cases hd : c.isDigit = true
    · rw [if_pos hd, Option.some.injEq, Prod.mk.injEq, Prod.mk.injEq] at h
      obtain ⟨hp, hrun, hsuf⟩ := h
      subst hp; subst hrun; subst hsuf
      refine ⟨by simp [List.takeWhile_append_dropWhile], by simp, ?_, by simp, ?_⟩
      · intro x hx
        rcases List.mem_cons.mp hx with hx | hx
        · subst hx; exact hd
        · exact List.mem_takeWhile_imp hx
      · intro x hx
        exact dropWhile_head_not cs x hx
    · rw [if_neg hd] at h
      cases hs : splitDigitRun cs with
      | none => rw [hs] at h; cases h
      | some q =>
        obtain ⟨p1, r1, s1⟩ := q
        rw [hs, Option.some.injEq, Prod.mk.injEq, Prod.mk.injEq] at h
        obtain ⟨hp, hrun, hsuf⟩ := h
        subst hp; subst hrun; subst hsuf
        obtain ⟨ih1, ih2, ih3, ih4, ih5⟩ := ih p1 r1 s1 hs
        refine ⟨by rw [List.cons_append, List.cons_append, ← ih1], ih2, ih3, ?_, ih5⟩
        intro x hx
        rcases List.mem_cons.mp hx with hx | hx
        · subst hx; exact Bool.eq_false_iff.mpr hd
        · exact ih4 x hx

theorem getD_removeAt_ge {α : Type} (l : List α) (cur i : Nat) (d : α)
    (hcur : cur ≤ l.length) :
    (l.take cur ++ l.drop (cur + 1)).getD (cur + i) d = l.getD (cur + 1 + i) d := by
  have hlen : (l.take cur).length = cur := by
    rw [List.length_take]; omega
  calc (l.take cur ++ l.drop (cur + 1)).getD (cur + i) d
      = (l.take cur ++ l.drop (cur + 1)).getD ((l.take cur).length + i) d := by rw [hlen]
    _ = (l.drop (cur + 1)).getD i d := getD_append_skip _ _ i d
    _ = l.getD (cur + 1 + i) d := getD_drop l (cur + 1) i d

/-! ## Claim theorems -/

/-- C4: For every reading, lookup first tries an exact match in the User
store and only on a miss consults the System store (the User store shadows
the System store for an identical reading); if both miss, lookup scans the
reading for a maximal contiguous digit run, reports not-found (a distinct
result, not an empty list) when there is none, and otherwise replaces the
digit run with a single '#' placeholder character and retries the exact
lookup under that placeholder key. -/
theorem C4_lookup_order_and_digit_abstraction (M : Mode) (r : String) :
    (∀ l, jLookup M.user r = some l → lookup M r = some l) ∧
    (jLookup M.user r = none → lookupBoth M r = jLookup M.system r) ∧
    (lookupBoth M r = none → (∀ c ∈ r.data, c.isDigit = false) → lookup M r = none) ∧
    (∀ p run suf, lookupBoth M r = none → splitDigitRun r.data = some (p, run, suf) →
      (r.data = p ++ run ++ suf ∧ run ≠ [] ∧ (∀ c ∈ run, c.isDigit = true) ∧
        (∀ c ∈ p, c.isDigit = false) ∧ (∀ c, suf.head? = some c → c.isDigit = false)) ∧
      (lookupBoth M (String.mk (p ++ '#' :: suf)) = none → lookup M r = none) ∧
      (∀ l, lookupBoth M (String.mk (p ++ '#' :: suf)) = some l →
        lookup M r =
          some (l.map (fun s => String.mk (replaceNumStyles (String.mk run) s.data))))) := by
  refine ⟨fun l h => lookup_user_some M r l h, fun h => lookupBoth_user_none M r h, ?_, ?_⟩
  · intro h hnd
    simp only [lookup, h, (splitDigitRun_none r.data).mpr hnd]
  · intro p run suf h hs
    refine ⟨splitDigitRun_spec r.data p run suf hs, ?_, ?_⟩
    · intro h2
      simp only [lookup, h, hs, h2]
    · intro l h2
      simp only [lookup, h, hs, h2]

/-- C4 witness: with the User store holding ねこ and the System store
holding the placeholder reading とし#, the reading とし25 misses both
exact lookups, splits off the digit run 25, and resolves through the
placeholder key with the digits substituted. -/
theorem C4_lookup_order_witness :
    lookupBoth (Mode.mk [("ねこ", ["猫"])] [("とし#", ["#0年"])]) "とし25" = none ∧
    splitDigitRun "とし25".data = some ("とし".data, "25".data, []) ∧
    lookup (Mode.mk [("ねこ", ["猫"])] [("とし#", ["#0年"])]) "とし25" = some ["25年"] := by
  refine ⟨by decide, by decide, ?_⟩
  have h := ((C4_lookup_order_and_digit_abstraction
      (Mode.mk [("ねこ", ["猫"])] [("とし#", ["#0年"])]) "とし25").2.2.2
      "とし".data "25".data [] (by decide) (by decide)).2.2 ["#0年"] (by decide)
  exact h.trans (by decide)

/-- C5: For every candidate returned by a placeholder lookup with captured
digit run D, each embedded two-character numeral-style code is replaced:
style 0 yields D verbatim; style 1 yields the full-width rendering of D;
styles 2 and 3 both yield the per-digit kanji rendering of D, with D = "0"
rendering as the single glyph 〇; the other recognized style codes (4, 5
and 9) default to the digits verbatim rather than failing, and characters
outside a recognized code are left untouched. -/
theorem C5_numeral_style_rendering (D : String) (rest : List Char) (c d : Char) :
    (replaceNumStyles D ('#' :: '0' :: rest) = D.data ++ replaceNumStyles D rest) ∧
    (replaceNumStyles D ('#' :: '1' :: rest) =
      (hanToZenString D).data ++ replaceNumStyles D rest) ∧
    (replaceNumStyles D ('#' :: '2' :: rest) =
      (numberToKanji D).data ++ replaceNumStyles D rest) ∧
    (replaceNumStyles D ('#' :: '3' :: rest) =
      (numberToKanji D).data ++ replaceNumStyles D rest) ∧
    styleRender D '2' = styleRender D '3' ∧
    numberToKanji "0" = "〇" ∧
    hanToZenString "0123456789" = "０１２３４５６７８９" ∧
    numberToKanji "0123456789" = "〇一二三四五六七八九" ∧
    (∀ e, e = '4' ∨ e = '5' ∨ e = '9' →
      replaceNumStyles D ('#' :: e :: rest) = D.data ++ replaceNumStyles D rest) ∧
    (isStyleCode d = false →
      replaceNumStyles D ('#' :: d :: rest) = '#' :: replaceNumStyles D (d :: rest)) ∧
    (c ≠ '#' →
      replaceNumStyles D (c :: d :: rest) = c :: replaceNumStyles D (d :: rest)) := by
  refine ⟨?_, ?_, ?_, ?_, by simp [styleRender], by decide, by decide, by decide, ?_, ?_, ?_⟩
  · simp [replaceNumStyles, styleRender, isStyleCode]
  · simp [replaceNumStyles, styleRender, isStyleCode]
  · simp [replaceNumStyles, styleRender, isStyleCode]
  · simp [replaceNumStyles, styleRender, isStyleCode]
  · rintro e (rfl | rfl | rfl) <;> simp [replaceNumStyles, styleRender, isStyleCode]
  · intro h
    simp [replaceNumStyles, h]
  · intro h
    simp [replaceNumStyles, h]

/-- C5 witness: a concrete rendering with the unrecognized-but-matched
style 9 defaulting to the digits verbatim, and a non-placeholder character
passed through unchanged. -/
theorem C5_numeral_style_witness :
    ('あ' ≠ '#') ∧ isStyleCode '7' = false ∧
    replaceNumStyles "5" ('#' :: '9' :: []) = "5".data ++ replaceNumStyles "5" [] ∧
    replaceNumStyles "5" ('#' :: '7' :: []) = '#' :: replaceNumStyles "5" ['7'] ∧
    replaceNumStyles "5" ('あ' :: '2' :: []) = 'あ' :: replaceNumStyles "5" ['2'] := by
  refine ⟨by decide, by decide, ?_, ?_, ?_⟩
  · exact (C5_numeral_style_rendering "5" [] 'a' '7').2.2.2.2.2.2.2.2.1 '9'
      (Or.inr (Or.inr rfl))
  · exact (C5_numeral_style_rendering "5" [] 'a' '7').2.2.2.2.2.2.2.2.2.1 (by decide)
  · exact (C5_numeral_style_rendering "5" [] 'あ' '2').2.2.2.2.2.2.2.2.2.2 (by decide)

/-- C6: In the Purging state, exactly the answers "y" and "yes" remove the
currently selected candidate from the reading's list in the User store,
preserving the relative order of the remaining candidates; if it was the
only candidate the whole reading entry is deleted from the User store; for
any other answer or a prompt failure, the candidate list and the current
selection index are left unchanged and the current candidate stays
displayed. -/
theorem C6_purge_semantics (ctx : HCtx) (M : Mode) (b : Buffer) (cur : Nat) (ans : Option String)
    (hcur : cur < ctx.list.length)
    (_huser : jLookup M.user ctx.source = some ctx.list) :
    (∀ a, ans = some a → (a = "y" ∨ a = "yes") →
      (purStep ctx M b cur ans).1 = .purged ∧
      (purStep ctx M b cur ans).2.2 = b.replaceAndRepaint ctx.markerPos "" ∧
      (ctx.list.length = 1 →
        jLookup (purStep ctx M b cur ans).2.1.user ctx.source = none) ∧
      (1 < ctx.list.length →
        jLookup (purStep ctx M b cur ans).2.1.user ctx.source =
          some (ctx.list.take cur ++ ctx.list.drop (cur + 1)) ∧
        (ctx.list.take cur ++ ctx.list.drop (cur + 1)).length + 1 = ctx.list.length ∧
        (∀ j, j < cur →
          (ctx.list.take cur ++ ctx.list.drop (cur + 1)).getD j "" = ctx.list.getD j "") ∧
        (∀ j, cur ≤ j → j + 1 < ctx.list.length →
          (ctx.list.take cur ++ ctx.list.drop (cur + 1)).getD j "" =
            ctx.list.getD (j + 1) ""))) ∧
    (∀ a, ans = some a → a ≠ "y" → a ≠ "yes" →
      purStep ctx M b cur ans = (.selecting cur, M, b)) ∧
    (ans = none → purStep ctx M b cur ans = (.selecting cur, M, b)) := by
  have htakelen : (ctx.list.take cur).length = cur := by
    rw [List.length_take]
    omega
  refine ⟨?_, ?_, ?_⟩
  · rintro a rfl hy
    simp only [purStep, if_pos hy]
    refine ⟨by trivial, by trivial, ?_, ?_⟩
    · intro h1
      have : ctx.list.length ≤ 1 := le_of_eq h1
      simp only [if_pos this]
      exact jLookup_jDelete_self M.user ctx.source
    · intro h1
      have : ¬(ctx.list.length ≤ 1) := by omega
      simp only [if_neg this]
      refine ⟨jLookup_jInsert_self M.user ctx.source _, ?_, ?_, ?_⟩
      · rw [List.length_append, htakelen, List.length_drop]
        omega
      · intro j hj
        rw [List.getD_append _ _ _ j (by omega), getD_take ctx.list cur j "" hj]
      · intro j hj1 hj2
        obtain ⟨i, rfl⟩ : ∃ i, j = cur + i := ⟨j - cur, by omega⟩
        rw [getD_removeAt_ge ctx.list cur i "" (le_of_lt hcur)]
        congr 1
        omega
  · rintro a rfl h1 h2
    have : ¬(a = "y" ∨ a = "yes") := by
      rintro (rfl | rfl)
      · exact h1 rfl
      · exact h2 rfl
    simp only [purStep, if_neg this]
  · rintro rfl
    rfl

/-- C6 witness: purging the middle candidate of a three-entry user list
with the answer "y" shortens the list by one and keeps the order. -/
theorem C6_purge_witness :
    (1 < 3 ∧
      jLookup [("よみ", ["甲", "乙", "丙"])] "よみ" = some ["甲", "乙", "丙"]) ∧
    jLookup (purStep ⟨["甲", "乙", "丙"], "よみ", "", 0⟩
        (Mode.mk [("よみ", ["甲", "乙", "丙"])] []) ⟨"▼乙".data, 2⟩ 1
        (some "y")).2.1.user "よみ" = some ["甲", "丙"] := by
  refine ⟨⟨by decide, by decide⟩, ?_⟩
  have h := (((C6_purge_semantics ⟨["甲", "乙", "丙"], "よみ", "", 0⟩
      (Mode.mk [("よみ", ["甲", "乙", "丙"])] []) ⟨"▼乙".data, 2⟩ 1 (some "y")
      (by decide) (by decide)).1 "y" rfl (Or.inl rfl)).2.2.2 (by decide)).1
  exact h.trans (by decide)

/-- C7: In the Registering state, a non-empty answer that does not already
appear in the reading's candidate list is inserted at the front of that
reading's list in the User store and committed into the buffer with the
marker dropped, so that a subsequent lookup of the same reading returns it
as the first candidate; re-registering a word already present is suppressed
and leaves the list length unchanged; an empty answer or prompt failure
reverts to Composing with the literal reading and pending marker restored. -/
theorem C7_registration (ctx : HCtx) (M : Mode) (b : Buffer) (ans : Option String)
    (pre mid post : List Char)
    (hb : b = ⟨pre ++ mid ++ post, pre.length + mid.length⟩)
    (hp : ctx.markerPos = pre.length) :
    (∀ w, ans = some w → w ≠ "" →
      (w ∉ (lookup M ctx.source).getD [] →
        jLookup (regStep ctx M b ans).2.1.user ctx.source =
          some (w :: (lookup M ctx.source).getD []) ∧
        lookup (regStep ctx M b ans).2.1 ctx.source =
          some (w :: (lookup M ctx.source).getD []) ∧
        (regStep ctx M b ans).1 = .registered ∧
        (regStep ctx M b ans).2.2 = ⟨pre ++ w.data ++ post, pre.length + w.length⟩) ∧
      (w ∈ (lookup M ctx.source).getD [] →
        (regStep ctx M b ans).2.1 = M ∧
        lookup (regStep ctx M b ans).2.1 ctx.source = lookup M ctx.source ∧
        (regStep ctx M b ans).1 = .registered ∧
        (regStep ctx M b ans).2.2 = ⟨pre ++ w.data ++ post, pre.length + w.length⟩)) ∧
    ((ans = none ∨ ans = some "") →
      (regStep ctx M b ans).2.1 = M ∧ (regStep ctx M b ans).1 = .composing ∧
      (regStep ctx M b ans).2.2 =
        ⟨pre ++ (markerWhite ++ ctx.source).data ++ post,
          pre.length + (markerWhite ++ ctx.source).length⟩) := by
  subst hb
  refine ⟨?_, ?_⟩
  · rintro w rfl hw
    constructor
    · intro hnotmem
      simp only [regStep, newCandidate, if_neg hw, if_neg hnotmem]
      refine ⟨jLookup_jInsert_self M.user ctx.source _, ?_, by trivial, ?_⟩
      · exact lookup_user_some _ ctx.source _ (jLookup_jInsert_self M.user ctx.source _)
      · rw [hp]
        exact replace_shape pre mid post w
    · intro hmem
      simp only [regStep, newCandidate, if_neg hw, if_pos hmem]
      refine ⟨by trivial, by trivial, by trivial, ?_⟩
      rw [hp]
      exact replace_shape pre mid post w
  · rintro (rfl | rfl)
    · simp only [regStep, newCandidate]
      refine ⟨by trivial, by trivial, ?_⟩
      rw [hp]
      exact replace_shape pre mid post (markerWhite ++ ctx.source)
    · simp only [regStep, newCandidate, if_pos rfl]
      refine ⟨by trivial, by trivial, ?_⟩
      rw [hp]
      exact replace_shape pre mid post (markerWhite ++ ctx.source)

/-- C7 witness: registering 雪 for the reading ゆき (whose only stored
candidate was 行き) puts 雪 first in the User store and in a subsequent
lookup, and commits it into the buffer without the marker. -/
theorem C7_registration_witness :
    ("雪" ∉ (lookup (Mode.mk [] [("ゆき", ["行き"])]) "ゆき").getD []) ∧
    lookup (regStep ⟨["行き"], "ゆき", "", 1⟩ (Mode.mk [] [("ゆき", ["行き"])])
        ⟨"あ▼行き".data, 4⟩ (some "雪")).2.1 "ゆき" = some ["雪", "行き"] ∧
    (regStep ⟨["行き"], "ゆき", "", 1⟩ (Mode.mk [] [("ゆき", ["行き"])])
        ⟨"あ▼行き".data, 4⟩ (some "雪")).2.2 = ⟨"あ雪".data, 2⟩ := by
  have h := (((C7_registration ⟨["行き"], "ゆき", "", 1⟩ (Mode.mk [] [("ゆき", ["行き"])])
      ⟨"あ▼行き".data, 4⟩ (some "雪") ['あ'] "▼行き".data [] (by decide) (by decide)).1
      "雪" rfl (by decide)).1 (by decide))
  exact ⟨by decide, h.2.1.trans (by decide), h.2.2.2.trans (by decide)⟩

/-- C1 counterexample: in Selecting, the control key Ctrl-A (a control
character other than the cancel key Ctrl-G) drops the marker but exits
with no re-dispatched key: the claimed re-dispatch of the key as an
ordinary editor command does not happen for control characters. -/
theorem C1_control_redispatch_counterexample :
    (selStep ⟨["猫"], "ねこ", "", 0⟩ (Mode.mk [] []) ⟨"▼猫".data, 2⟩ 0 "\x01").1 =
      .committed none ∧
    (selStep ⟨["猫"], "ねこ", "", 0⟩ (Mode.mk [] []) ⟨"▼猫".data, 2⟩ 0 "\x01").2.2 =
      ⟨"猫".data, 1⟩ ∧
    HState.committed none ≠ HState.committed (some "\x01") := by
  refine ⟨by decide, by decide, by decide⟩

/-- C1 (amended): in Selecting, every control character other than Ctrl-G
commits the displayed candidate by dropping the marker cell and returns
CONTINUE without re-dispatching the key; it is the printable keys other
than space, x and X that commit and then re-dispatch the key as an
ordinary editor command. -/
theorem C1_amended_control_chars_commit_quietly
    (ctx : HCtx) (M : Mode) (b : Buffer) (cur : Nat) (input : String)
    (h1 : goLess input.data " ".data = true) (h2 : input ≠ ctrlG) :
    selStep ctx M b cur input = (.committed none, M, removeOne b ctx.markerPos) ∧
    (∀ k : String, goLess k.data " ".data = false → k ≠ " " → k ≠ "x" → k ≠ "X" →
      selStep ctx M b cur k = (.committed (some k), M, removeOne b ctx.markerPos)) := by
  constructor
  · rw [selStep, if_neg h2, if_pos h1]
  · intro k hk1 hk2 hk3 hk4
    have hg : k ≠ ctrlG := by
      rintro rfl
      exact Bool.false_ne_true (hk1.symm.trans (by decide))
    rw [selStep, if_neg hg]
    rw [hk1]
    rw [if_neg (Bool.false_ne_true), if_neg hk2, if_neg hk3, if_neg hk4]

/-- C1 witness: the concrete control key Ctrl-B commits quietly and the
plain key q commits with a re-dispatch. -/
theorem C1_amended_witness :
    (goLess "\x02".data " ".data = true ∧ "\x02" ≠ ctrlG) ∧
    selStep ⟨["猫"], "ねこ", "", 0⟩ (Mode.mk [] []) ⟨"▼猫".data, 2⟩ 0 "\x02" =
      (.committed none, Mode.mk [] [], removeOne ⟨"▼猫".data, 2⟩ 0) ∧
    selStep ⟨["猫"], "ねこ", "", 0⟩ (Mode.mk [] []) ⟨"▼猫".data, 2⟩ 0 "q" =
      (.committed (some "q"), Mode.mk [] [], removeOne ⟨"▼猫".data, 2⟩ 0) := by
  have h := C1_amended_control_chars_commit_quietly ⟨["猫"], "ねこ", "", 0⟩ (Mode.mk [] [])
    ⟨"▼猫".data, 2⟩ 0 "\x02" (by decide) (by decide)
  exact ⟨⟨by decide, by decide⟩, h.1, h.2 "q" (by decide) (by decide) (by decide) (by decide)⟩

theorem iterateSpaces_add (ctx : HCtx) (m n : Nat) (s : HState × Mode × Buffer) :
    iterateSpaces ctx (m + n) s = iterateSpaces ctx n (iterateSpaces ctx m s) := by
  induction m generalizing s with
  | zero => simp [iterateSpaces]
  | succ m ih =>
    have : m + 1 + n = (m + n) + 1 := by omega
    rw [this, iterateSpaces, iterateSpaces, ih]

theorem iterateSpaces_selecting (ctx : HCtx) (hlen : ctx.list.length ≤ listingStartIndex) :
    ∀ (n cur : Nat) (M : Mode) (b : Buffer), cur + n < ctx.list.length →
      ∃ b2, iterateSpaces ctx n (.selecting cur, M, b) = (.selecting (cur + n), M, b2) := by
  intro n
  induction n with
  | zero => exact fun cur M b _ => ⟨b, rfl⟩
  | succ n ih =>
    intro cur M b hn
    rw [iterateSpaces]
    have hstep : stepH ctx (.selecting cur, M, b) (some " ") =
        (.selecting (cur + 1), M, b.replaceAndRepaint ctx.markerPos (selDisplay ctx (cur + 1))) := by
      have hLSI : listingStartIndex = 4 := rfl
      have h1 : ¬(cur + 1 ≥ ctx.list.length) := by omega
      have h2 : ¬(cur + 1 ≥ listingStartIndex) := by omega
      rw [stepH, Option.getD, selStep, if_neg (by decide), if_neg (by decide), if_pos rfl,
        if_neg h1, if_neg h2]
    rw [hstep]
    obtain ⟨b2, hb2⟩ := ih (cur + 1) M
      (b.replaceAndRepaint ctx.markerPos (selDisplay ctx (cur + 1))) (by omega)
    have heq : cur + 1 + n = cur + (n + 1) := by omega
    exact ⟨b2, by rw [hb2, heq]⟩

/-- C2 counterexample: with a five-candidate list, five space advances from
the first candidate end in Paging with the window saturated at the list
end, not in Registering; the Paging loop of henkanMode has no transition
into the registration flow, so "exactly len(L) advances reach Registering"
fails for lists longer than the paging threshold. -/
theorem C2_advance_counterexample :
    (iterateSpaces ⟨["一", "二", "三", "四", "五"], "よみ", "", 0⟩ 5
      (.selecting 0, Mode.mk [] [], ⟨"▼一".data, 2⟩)).1 = .paging 5 ∧
    (iterateSpaces ⟨["一", "二", "三", "四", "五"], "よみ", "", 0⟩ 12
      (.selecting 0, Mode.mk [] [], ⟨"▼一".data, 2⟩)).1 = .paging 5 ∧
    HState.paging 5 ≠ .registering := by
  refine ⟨by decide, by decide, by decide⟩

/-- C2 (amended): in Selecting, space increments the current index, entering
Registering when the index reaches the end of the list and Paging when it
reaches the paging threshold 4 before the end; inside Paging, space
advances the window by 8 saturating at the list end, but an exhausted list
leaves the controller in Paging rather than folding into Registering, so
exactly len(L) advances from the first candidate reach Registering
precisely for lists that never enter Paging (len(L) ≤ 4). -/
theorem C2_amended_advance (ctx : HCtx) (M : Mode) (b : Buffer) (cur : Nat) :
    (cur + 1 ≥ ctx.list.length → (selStep ctx M b cur " ").1 = .registering) ∧
    (cur + 1 < ctx.list.length → cur + 1 ≥ listingStartIndex →
      selStep ctx M b cur " " = (.paging (cur + 1), M, b)) ∧
    (cur + 1 < ctx.list.length → cur + 1 < listingStartIndex →
      selStep ctx M b cur " " =
        (.selecting (cur + 1), M,
          b.replaceAndRepaint ctx.markerPos (selDisplay ctx (cur + 1)))) ∧
    (pagStep ctx M b cur (some " ") =
      (.paging (pagingWindowEnd ctx.list.length cur), M, b)) ∧
    (∀ k, (pagStep ctx M b cur (some k)).1 ≠ .registering) ∧
    (1 ≤ ctx.list.length → ctx.list.length ≤ listingStartIndex →
      (iterateSpaces ctx ctx.list.length (.selecting 0, M, b)).1 = .registering) := by
  refine ⟨?_, ?_, ?_, ?_, ?_, ?_⟩
  · intro h
    rw [selStep, if_neg (by decide), if_neg (by decide), if_pos rfl, if_pos h]
  · intro h1 h2
    rw [selStep, if_neg (by decide), if_neg (by decide), if_pos rfl,
      if_neg (by omega), if_pos h2]
  · intro h1 h2
    rw [selStep, if_neg (by decide), if_neg (by decide), if_pos rfl,
      if_neg (by omega), if_neg (by omega)]
  · rw [pagStep, selectKeyIndex]
    rw [show strIndex "asdfjkl:".data " ".data = none from by decide]
    rw [if_pos rfl]
  · intro k
    rw [pagStep]
    cases h : selectKeyIndex k with
    | some i => simp
    | none =>
      by_cases h1 : k = " "
      · subst h1; simp
      · rw [if_neg h1]
        by_cases h2 : k = "x"
        · subst h2
          by_cases h3 : cur - 8 < listingStartIndex
          · rw [if_pos rfl, if_pos h3]; simp
          · rw [if_pos rfl, if_neg h3]; simp
        · rw [if_neg h2]
          by_cases h4 : k = ctrlG
          · subst h4; rw [if_pos rfl]; simp
          · rw [if_neg h4]; simp
  · intro h1 h4
    obtain ⟨m, hm⟩ : ∃ m, ctx.list.length = m + 1 := ⟨ctx.list.length - 1, by omega⟩
    obtain ⟨b2, hb2⟩ := iterateSpaces_selecting ctx h4 m 0 M b (by omega)
    rw [hm, iterateSpaces_add, hb2, iterateSpaces, iterateSpaces]
    rw [stepH, Option.getD, selStep, if_neg (by decide), if_neg (by decide), if_pos rfl,
      if_pos (by omega)]

/-- C2 witness: a four-candidate list reaches Registering in exactly four
advances, and a Paging space advance saturates at the list end. -/
theorem C2_amended_witness :
    (1 ≤ 4 ∧ 4 ≤ listingStartIndex) ∧
    (iterateSpaces ⟨["一", "二", "三", "四"], "よみ", "", 0⟩ 4
      (.selecting 0, Mode.mk [] [], ⟨"▼一".data, 2⟩)).1 = .registering ∧
    pagStep ⟨["一", "二", "三", "四", "五"], "よみ", "", 0⟩ (Mode.mk [] [])
        ⟨"▼五".data, 2⟩ 4 (some " ") =
      (.paging (pagingWindowEnd 5 4), Mode.mk [] [], ⟨"▼五".data, 2⟩) := by
  refine ⟨⟨by decide, by decide⟩, ?_, ?_⟩
  · have h := ((C2_amended_advance ⟨["一", "二", "三", "四"], "よみ", "", 0⟩
      (Mode.mk [] []) ⟨"▼一".data, 2⟩ 0).2.2.2.2.2 (by decide) (by decide))
    exact h
  · have h := (C2_amended_advance ⟨["一", "二", "三", "四", "五"], "よみ", "", 0⟩
      (Mode.mk [] []) ⟨"▼五".data, 2⟩ 4).2.2.2.1
    exact h

/-- C3 counterexample: an okurigana conversion (reading かk, display
suffix く) in Paging: the direct selection key a commits the bare
candidate without the く suffix, so not every commit path out of Paging
includes the postfix. -/
theorem C3_paging_commit_counterexample :
    (pagStep ⟨["書1;x", "書2", "書3", "書4", "書5"], "かk", "く", 0⟩ (Mode.mk [] [])
      ⟨"▼書4く".data, 4⟩ 4 (some "a")).1 = .committed none ∧
    (pagStep ⟨["書1;x", "書2", "書3", "書4", "書5"], "かk", "く", 0⟩ (Mode.mk [] [])
      ⟨"▼書4く".data, 4⟩ 4 (some "a")).2.2 = ⟨"書5".data, 2⟩ ∧
    ('く' ∈ ("書5".data : List Char)) = false := by
  refine ⟨by decide, by decide, by decide⟩

/-- C3 (amended): for every conversion triggered with an okurigana
consonant, the reading passed to dictionary lookup is the marked text plus
that consonant letter, and a postfix (the kana table rendering of the
trigger key if it is a vowel, otherwise the literal trigger character) is
appended to the candidate displayed in Selecting; the commit paths out of
Selecting (control characters and re-dispatched printable keys) keep that
postfix in the inserted text, but the Paging display and its
direct-selection commit use the bare candidate without the postfix. -/
theorem C3_amended_okuri_suffix (ctx : HCtx) (M : Mode) :
    (∀ (table : String → String) (b : Buffer) (key : Char) (p : Nat),
      seekMarker b = some p →
      triggerCall table b key =
        .henkan p (b.subString (p + 1) b.cursor ++ Char.toString key)
          (triggerOkuri table key)) ∧
    (∀ (table : String → String) (key : Char),
      ("aiueo".data.contains key = true →
        triggerOkuri table key = table (Char.toString key)) ∧
      ("aiueo".data.contains key = false →
        triggerOkuri table key = Char.toString key)) ∧
    (∀ (b : Buffer) (markerPos : Nat) (source okuri : String) (list : List String),
      lookup M source = some list →
      (henkanMode M b markerPos source okuri).2.2.2 =
        b.replaceAndRepaint markerPos (markerBlack ++ cutSemi (list.getD 0 "") ++ okuri)) ∧
    (∀ (cur : Nat) (b : Buffer), cur + 1 < ctx.list.length → cur + 1 < listingStartIndex →
      (selStep ctx M b cur " ").2.2 =
        b.replaceAndRepaint ctx.markerPos
          (markerBlack ++ cutSemi (ctx.list.getD (cur + 1) "") ++ ctx.okuri)) ∧
    (∀ (pre post : List Char) (cand : String) (cur n : Nat) (input : String),
      ctx.markerPos = pre.length →
      goLess input.data " ".data = true → input ≠ ctrlG →
      (selStep ctx M ⟨pre ++ '▼' :: (cutSemi cand ++ ctx.okuri).data ++ post, n⟩
          cur input).2.2 =
        ⟨pre ++ (cutSemi cand ++ ctx.okuri).data ++ post, n - 1⟩) ∧
    (∀ (pre post : List Char) (cand : String) (cur n : Nat) (input : String),
      ctx.markerPos = pre.length →
      goLess input.data " ".data = false → input ≠ " " → input ≠ "x" → input ≠ "X" →
      (selStep ctx M ⟨pre ++ '▼' :: (cutSemi cand ++ ctx.okuri).data ++ post, n⟩
          cur input).2.2 =
        ⟨pre ++ (cutSemi cand ++ ctx.okuri).data ++ post, n - 1⟩) ∧
    (∀ (cur i : Nat) (b : Buffer) (k : String), selectKeyIndex k = some i →
      (pagStep ctx M b cur (some k)).2.2 =
        b.replaceAndRepaint ctx.markerPos (cutSemi (ctx.list.getD (cur + i) ""))) := by
  refine ⟨?_, ?_, ?_, ?_, ?_, ?_, ?_⟩
  · intro table b key p h
    rw [triggerCall, h]
    rfl
  · intro table key
    constructor
    · intro h
      rw [triggerOkuri, if_pos h]
    · intro h
      rw [triggerOkuri, if_neg (by rw [h]; exact Bool.false_ne_true)]
  · intro b markerPos source okuri list h
    simp only [henkanMode, h]
  · intro cur b h1 h2
    rw [selStep, if_neg (by decide), if_neg (by decide), if_pos rfl,
      if_neg (by omega), if_neg (by omega)]
    rfl
  · intro pre post cand cur n input hp h1 h2
    rw [selStep, if_neg h2, if_pos h1, hp]
    exact congrArg (fun x => (removeOne x pre.length)) rfl |>.trans
      (removeOne_shape pre ((cutSemi cand ++ ctx.okuri).data) post '▼' n)
  · intro pre post cand cur n input hp h1 h2 h3 h4
    have hg : input ≠ ctrlG := by
      rintro rfl
      exact Bool.false_ne_true (h1.symm.trans (by decide))
    rw [selStep, if_neg hg, h1]
    rw [if_neg (Bool.false_ne_true), if_neg h2, if_neg h3, if_neg h4, hp]
    exact removeOne_shape pre ((cutSemi cand ++ ctx.okuri).data) post '▼' n
  · intro cur i b k h
    rw [pagStep, h]

/-- C3 witness: a control-character commit out of Selecting keeps the
okurigana suffix く in the inserted text. -/
theorem C3_okurigana_witness :
    (goLess "\x02".data " ".data = true ∧ "\x02" ≠ ctrlG) ∧
    (selStep ⟨["書1;x", "書2", "書3", "書4", "書5"], "かk", "く", 1⟩ (Mode.mk [] [])
        ⟨['あ'] ++ '▼' :: (cutSemi "書4" ++ "く").data ++ [], 5⟩ 3 "\x02").2.2 =
      ⟨['あ'] ++ (cutSemi "書4" ++ "く").data ++ [], 5 - 1⟩ := by
  have h := (C3_amended_okuri_suffix ⟨["書1;x", "書2", "書3", "書4", "書5"], "かk", "く", 1⟩
      (Mode.mk [] [])).2.2.2.2.1 ['あ'] [] "書4" 3 5 "\x02" (by decide) (by decide) (by decide)
  exact ⟨⟨by decide, by decide⟩, h⟩

/-- C9: Capturing the pre-IME key-binding snapshot is idempotent: the first
backupKeyMap call records the ordered snapshot of the previous bindings of
the fixed key-code range 0x00..0x80, every subsequent call is a no-op
leaving the saved snapshot unchanged, and restoreKeyMap rebinds exactly the
saved snapshot verbatim (codes beyond it are untouched). -/
theorem C9_keymap_snapshot (A : Type) (d : A) (km km2 km3 : Nat → A)
    (sm : Option (List A)) :
    backupKeyMap (none : Option (List A)) km = some ((List.range 129).map km) ∧
    (∀ i, i ≤ 128 → ((List.range 129).map km).getD i d = km i) ∧
    (∀ l : List A, backupKeyMap (some l) km2 = some l) ∧
    backupKeyMap (backupKeyMap sm km) km2 = backupKeyMap sm km ∧
    (∀ i, i ≤ 128 → restoreKeyMap (backupKeyMap none km) km2 i = km i) ∧
    (∀ (l : List A) (i : Nat) (h : i < l.length),
      restoreKeyMap (some l) km3 i = l.get ⟨i, h⟩) ∧
    (∀ (l : List A) (i : Nat), l.length ≤ i → restoreKeyMap (some l) km3 i = km3 i) := by
  have hget : ∀ (i : Nat), i ≤ 128 → ∀ (f : Nat → A), ((List.range 129).map f).getD i d = f i := by
    intro i hi f
    have hl : i < ((List.range 129).map f).length := by
      simp
      omega
    rw [List.getD_eq_getElem _ _ hl, List.getElem_map, List.getElem_range]
  refine ⟨rfl, fun i hi => hget i hi km, fun l => rfl, by cases sm <;> rfl, ?_, ?_, ?_⟩
  · intro i hi
    show ((List.range 129).map km).getD i (km2 i) = km i
    have hl : i < ((List.range 129).map km).length := by
      simp
      omega
    rw [List.getD_eq_getElem _ _ hl, List.getElem_map, List.getElem_range]
  · intro l i h
    show l.getD i (km3 i) = l.get ⟨i, h⟩
    rw [List.getD_eq_getElem _ _ h, List.get_eq_getElem]
  · intro l i h
    show l.getD i (km3 i) = km3 i
    exact List.getD_eq_default _ _ h

/-- C9 witness: a second capture with a different keymap is a no-op, and
restore rebinds the first snapshot verbatim at code 65. -/
theorem C9_keymap_witness :
    backupKeyMap (backupKeyMap (none : Option (List Nat)) (fun i => i + 1)) (fun _ => 0) =
      backupKeyMap (none : Option (List Nat)) (fun i => i + 1) ∧
    (65 ≤ 128 ∧
      restoreKeyMap (backupKeyMap (none : Option (List Nat)) (fun i => i + 1))
        (fun _ => 0) 65 = 66) := by
  have h := C9_keymap_snapshot Nat 0 (fun i => i + 1) (fun _ => 0) (fun _ => 0)
    (none : Option (List Nat))
  exact ⟨h.2.2.2.1, by decide, h.2.2.2.2.1 65 (by decide)⟩

/-- C10: For every buffer state with no active marker left of the cursor,
the commit command (Ctrl-J, cmdKakutei) and the cancel command (Ctrl-G,
cmdCancel) leave the buffer text unchanged and instead fall back to Latin
mode by restoring the saved pre-IME key-binding set. -/
theorem C10_no_marker_fallback (A : Type) (sm : Option (List A)) (b : Buffer) (km : Nat → A)
    (h : ∀ i, i < b.cursor → isMarker (b.buffer.getD i ' ') = false) :
    seekMarker b = none ∧
    cmdKakutei sm b km = (b, restoreKeyMap sm km) ∧
    cmdCancel sm b km = (b, restoreKeyMap sm km) ∧
    (∀ (l : List A) (i : Nat) (hi : i < l.length), sm = some l →
      (cmdKakutei sm b km).2 i = l.get ⟨i, hi⟩) := by
  have hsm : seekMarker b = none := by
    rw [seekMarker]
    exact (seekMarkerAux_none b.buffer b.cursor).mpr h
  refine ⟨hsm, ?_, ?_, ?_⟩
  · rw [cmdKakutei, hsm]
  · rw [cmdCancel, hsm]
  · rintro l i hi rfl
    rw [cmdKakutei, hsm]
    show l.getD i (km i) = l.get ⟨i, hi⟩
    rw [List.getD_eq_getElem _ _ hi, List.get_eq_getElem]

/-- C10 witness: a concrete marker-free buffer is left unchanged by
cmdKakutei while the keymap falls back to the saved snapshot. -/
theorem C10_no_marker_witness :
    (∀ i, i < 3 → isMarker (("abc".data : List Char).getD i ' ') = false) ∧
    cmdKakutei (some [10, 20, 30]) ⟨"abc".data, 3⟩ (fun _ => 0) =
      (⟨"abc".data, 3⟩, restoreKeyMap (some [10, 20, 30]) (fun _ => 0)) ∧
    (cmdKakutei (some [10, 20, 30]) ⟨"abc".data, 3⟩ (fun _ => 0)).2 1 = 20 := by
  have h := C10_no_marker_fallback Nat (some [10, 20, 30]) ⟨"abc".data, 3⟩ (fun _ => 0)
    (by decide)
  exact ⟨by decide, h.2.1, h.2.2.2 [10, 20, 30] 1 (by decide) rfl⟩

theorem removeOne_marker_count (pre rest post : List Char) (mk : Char) (n : Nat) :
    countMarkers (removeOne ⟨pre ++ mk :: rest ++ post, n⟩ pre.length).buffer =
      countMarkers pre + (countMarkers rest + countMarkers post) := by
  rw [removeOne_shape]
  show countMarkers (pre ++ rest ++ post) = _
  simp [List.append_assoc, countMarkers_append]

theorem replace_marker_count (pre rest post : List Char) (mk : Char) (t : String) :
    countMarkers ((Buffer.replaceAndRepaint
        ⟨pre ++ mk :: rest ++ post, pre.length + 1 + rest.length⟩ pre.length t)).buffer =
      countMarkers pre + (countMarkers t.data + countMarkers post) := by
  simp only [Buffer.replaceAndRepaint]
  have htake : (pre ++ mk :: rest ++ post).take pre.length = pre := by
    rw [List.append_assoc]
    exact List.take_left pre _
  have hsplit2 : pre ++ mk :: rest ++ post = ((pre ++ [mk]) ++ rest) ++ post := by simp
  have hlen2 : pre.length + 1 + rest.length = ((pre ++ [mk]) ++ rest).length := by
    simp
    omega
  have hdropc : (pre ++ mk :: rest ++ post).drop (pre.length + 1 + rest.length) = post := by
    rw [hlen2, hsplit2, List.drop_left]
  show countMarkers ((pre ++ mk :: rest ++ post).take pre.length ++ t.data ++
    (pre ++ mk :: rest ++ post).drop (pre.length + 1 + rest.length)) = _
  rw [htake, hdropc]
  simp [List.append_assoc, countMarkers_append]

theorem marker_buffer_count (pre rest post : List Char) (mk : Char)
    (hmk : isMarker mk = true) :
    countMarkers (pre ++ mk :: rest ++ post) =
      countMarkers pre + countMarkers rest + countMarkers post + 1 := by
  simp only [countMarkers, List.countP_append, List.countP_cons, hmk, if_true]
  omega

theorem stepH_marker_bound (ctx : HCtx) (M : Mode) (b : Buffer) (st : HState)
    (inp : Option String) (pre rest post : List Char) (mk : Char)
    (hb : b = ⟨pre ++ mk :: rest ++ post, pre.length + 1 + rest.length⟩)
    (hmk : isMarker mk = true)
    (hst : isCommitExit st = false)
    (hp : ctx.markerPos = pre.length)
    (hpre : countMarkers pre = 0) (hrest : countMarkers rest = 0)
    (hpost : countMarkers post = 0)
    (hdict : ∀ s ∈ ctx.list, countMarkers s.data = 0)
    (hsrc : countMarkers ctx.source.data = 0)
    (hok : countMarkers ctx.okuri.data = 0)
    (hans : ∀ a, inp = some a → countMarkers a.data = 0) :
    countMarkers (stepH ctx (st, M, b) inp).2.2.buffer ≤ 1 ∧
    (isCommitExit (stepH ctx (st, M, b) inp).1 = true →
      countMarkers (stepH ctx (st, M, b) inp).2.2.buffer = 0) := by
  subst hb
  have hRep : ∀ t : String,
      countMarkers ((Buffer.replaceAndRepaint
        ⟨pre ++ mk :: rest ++ post, pre.length + 1 + rest.length⟩ ctx.markerPos t)).buffer =
        countMarkers t.data := by
    intro t
    rw [hp, replace_marker_count pre rest post mk t, hpre, hpost]
    omega
  have hRem : countMarkers ((removeOne
      ⟨pre ++ mk :: rest ++ post, pre.length + 1 + rest.length⟩ ctx.markerPos)).buffer = 0 := by
    rw [hp, removeOne_marker_count pre rest post mk _, hpre, hrest, hpost]
  have hUnch : countMarkers (pre ++ mk :: rest ++ post) = 1 := by
    rw [marker_buffer_count pre rest post mk hmk, hpre, hrest, hpost]
  have hWhite : countMarkers (markerWhite ++ ctx.source).data = 1 := by
    rw [String.data_append, countMarkers_append, hsrc]
    have h1 : countMarkers markerWhite.data = 1 := by decide
    omega
  have hCutL : ∀ i, countMarkers (cutSemi (ctx.list.getD i "")).data = 0 :=
    fun i => countMarkers_cutSemi _ (countMarkers_getD ctx.list i hdict)
  have hSel : ∀ i, countMarkers (selDisplay ctx i).data = 1 := by
    intro i
    rw [selDisplay, String.data_append, String.data_append,
      countMarkers_append, countMarkers_append]
    have h1 : countMarkers markerBlack.data = 1 := by decide
    rw [h1, hCutL i, hok]
  have hP : ∀ (s : HState) (M2 : Mode) (b2 : Buffer),
      (isCommitExit s = true → countMarkers b2.buffer = 0) →
      countMarkers b2.buffer ≤ 1 →
      countMarkers ((s, M2, b2) : HState × Mode × Buffer).2.2.buffer ≤ 1 ∧
      (isCommitExit ((s, M2, b2) : HState × Mode × Buffer).1 = true →
        countMarkers ((s, M2, b2) : HState × Mode × Buffer).2.2.buffer = 0) :=
    fun s M2 b2 h1 h2 => ⟨h2, h1⟩
  cases st with
  | committed r => simp [isCommitExit] at hst
  | purged => simp [isCommitExit] at hst
  | registered => simp [isCommitExit] at hst
  | composing =>
    simp only [stepH]
    exact ⟨hUnch.le, fun h => by simp [isCommitExit] at h⟩
  | selecting cur =>
    simp only [stepH]
    rw [selStep]
    split_ifs with h1 h2 h3 h4 h5 h6 h7 h8
    all_goals refine hP _ _ _ ?_ ?_
    all_goals
      first
        | (intro _h; exact hRem)
        | (intro h; simp [isCommitExit] at h)
        | exact hUnch.le
        | (rw [hRem]; try decide)
        | (rw [hRep, hWhite]; try decide)
        | (rw [hRep, hSel]; try decide)
  | paging cur =>
    simp only [stepH]
    cases inp with
    | none =>
      simp only [pagStep]
      exact ⟨hUnch.le, fun h => by simp [isCommitExit] at h⟩
    | some k =>
      simp only [pagStep]
      cases hsk : selectKeyIndex k with
      | some i =>
        refine hP _ _ _ ?_ ?_
        · intro _h
          rw [hRep]
          exact hCutL (cur + i)
        · rw [hRep, hCutL (cur + i)]
          try decide
      | none =>
        split_ifs with h1 h2 h3 h4
        all_goals
          first
            | exact ⟨hUnch.le, fun h => by simp [isCommitExit] at h⟩
            | exact ⟨by rw [hRep, hWhite]; try decide,
                fun h => by simp [isCommitExit] at h⟩
  | purging cur =>
    simp only [stepH]
    cases inp with
    | none =>
      simp only [purStep]
      exact ⟨hUnch.le, fun h => by simp [isCommitExit] at h⟩
    | some a =>
      simp only [purStep]
      split_ifs with hy h1
      · refine ⟨?_, ?_⟩
        · rw [hRep]
          decide
        · intro _h
          rw [hRep]
          decide
      · refine ⟨?_, ?_⟩
        · rw [hRep]
          decide
        · intro _h
          rw [hRep]
          decide
      · exact ⟨hUnch.le, fun h => by simp [isCommitExit] at h⟩
  | registering =>
    simp only [stepH]
    cases inp with
    | none =>
      simp only [regStep, newCandidate]
      refine ⟨?_, ?_⟩
      · rw [hRep, hWhite]
        try decide
      · intro h; simp [isCommitExit] at h
    | some w =>
      have hw0 : countMarkers w.data = 0 := hans w rfl
      simp only [regStep, newCandidate]
      split_ifs with h1 h2
      · refine ⟨?_, ?_⟩
        · rw [hRep, hWhite]
          try decide
        · intro h; simp [isCommitExit] at h
      · refine ⟨?_, ?_⟩
        · rw [hRep, hw0]
          try decide
        · intro _h
          rw [hRep]
          exact hw0
      · refine ⟨?_, ?_⟩
        · rw [hRep, hw0]
          try decide
        · intro _h
          rw [hRep]
          exact hw0

/-- C8: With a single marker delimiting the conversion region, every
controller step keeps at most one marker in the buffer; every exit that
commits or purges the region (committed, purged, registered) leaves no
marker at all; seekMarker finds exactly that one marker; cmdCancel erases
the region including the marker; and with a marker active, cmdAbbrevMode
does nothing and a conversion trigger enters henkanMode instead of
inserting a second marker. -/
theorem C8_marker_region_invariant (ctx : HCtx) (M : Mode) (b : Buffer) (st : HState)
    (inp : Option String) (pre rest post : List Char) (mk : Char)
    (hb : b = ⟨pre ++ mk :: rest ++ post, pre.length + 1 + rest.length⟩)
    (hmk : isMarker mk = true)
    (hst : isCommitExit st = false)
    (hp : ctx.markerPos = pre.length)
    (hpre : countMarkers pre = 0) (hrest : countMarkers rest = 0)
    (hpost : countMarkers post = 0)
    (hdict : ∀ s ∈ ctx.list, countMarkers s.data = 0)
    (hsrc : countMarkers ctx.source.data = 0)
    (hok : countMarkers ctx.okuri.data = 0)
    (hans : ∀ a, inp = some a → countMarkers a.data = 0) :
    (countMarkers (stepH ctx (st, M, b) inp).2.2.buffer ≤ 1 ∧
      (isCommitExit (stepH ctx (st, M, b) inp).1 = true →
        countMarkers (stepH ctx (st, M, b) inp).2.2.buffer = 0)) ∧
    seekMarker b = some pre.length ∧
    (∀ (A : Type) (sm : Option (List A)) (km : Nat → A),
      countMarkers (cmdCancel sm b km).1.buffer = 0) ∧
    cmdAbbrevMode b = b ∧
    (∀ (table : String → String) (key : Char), triggerCall table b key ≠ .insertMarker) := by
  have hseek : seekMarker b = some pre.length := by
    rw [hb]
    exact seekMarker_shape pre rest post mk hmk hrest
  refine ⟨stepH_marker_bound ctx M b st inp pre rest post mk hb hmk hst hp hpre hrest hpost
      hdict hsrc hok hans, hseek, ?_, ?_, ?_⟩
  · intro A sm km
    rw [cmdCancel, hseek]
    show countMarkers (b.replaceAndRepaint pre.length "").buffer = 0
    rw [hb, replace_marker_count pre rest post mk "", hpre, hpost]
    decide
  · rw [cmdAbbrevMode, hseek]
  · intro table key h
    rw [triggerCall, hseek] at h
    exact TrigAct.noConfusion h

/-- C8 witness: a concrete selecting configuration with the region あ▼書く:
a control-character commit leaves no marker, seekMarker finds position 1,
cmdCancel erases the region, cmdAbbrevMode is a no-op and an upper-case
trigger enters conversion. -/
theorem C8_marker_witness :
    countMarkers (stepH ⟨["書く"], "かく", "", 1⟩
      (.selecting 0, Mode.mk [] [], ⟨"あ▼書く".data, 4⟩) (some "\x01")).2.2.buffer = 0 ∧
    seekMarker ⟨"あ▼書く".data, 4⟩ = some 1 ∧
    countMarkers (cmdCancel (some [0]) ⟨"あ▼書く".data, 4⟩ (fun _ => 0)).1.buffer = 0 ∧
    cmdAbbrevMode ⟨"あ▼書く".data, 4⟩ = ⟨"あ▼書く".data, 4⟩ ∧
    triggerCall (fun _ => "あ") ⟨"あ▼書く".data, 4⟩ 'k' ≠ .insertMarker := by
  have h := C8_marker_region_invariant ⟨["書く"], "かく", "", 1⟩ (Mode.mk [] [])
    ⟨"あ▼書く".data, 4⟩ (.selecting 0) (some "\x01") ['あ'] "書く".data [] '▼'
    (by decide) (by decide) (by decide) (by decide) (by decide) (by decide) (by decide)
    (by decide) (by decide) (by decide) (by intro a ha; cases ha; decide)
  exact ⟨h.1.2 (by decide), h.2.1, h.2.2.1 Nat (some [0]) (fun _ => 0), h.2.2.2.1,
    h.2.2.2.2 (fun _ => "あ") 'k'⟩

end Skk
